import Mathlib

/-!
Shallow embedding of the scrutix-xp invoice-audit core
(`src/lib/audit-history.ts`, `src/lib/csv-normalizer.ts`) in Lean 4.

Numbers are modelled as rationals (`ℚ`); JavaScript `Math.round` and
`Number(x.toFixed 2)` are modelled as round-half-up at the given number
of decimals.  Strings are modelled as Lean `String`/`List Char`; the
JavaScript string operations used by the source (`split`, `includes`,
`toLowerCase`, `trim`) are re-implemented below with the same semantics.
-/

namespace Scrutix

/-- JavaScript `Math.round`: round half toward positive infinity. -/
def jsRound (q : ℚ) : ℤ := ⌊q + 1/2⌋

/-- Rounding to 2 decimal places, as done by `Math.round(x*100)/100` and
by `Number(x.toFixed(2))` on the values appearing here. -/
def round2 (q : ℚ) : ℚ := (jsRound (q * 100) : ℚ) / 100

/-- Rounding to 4 decimal places (`Math.round(x*10000)/10000`). -/
def round4 (q : ℚ) : ℚ := (jsRound (q * 10000) : ℚ) / 10000

/-- List-of-characters version of "the first list is an initial segment of
the second" (used to model JavaScript substring search). -/
def listIsPref : List Char → List Char → Bool
  | [], _ => true
  | _ :: _, [] => false
  | a :: as, b :: bs => a == b && listIsPref as bs

/-- Does `needle` occur as a contiguous run inside `hay`?  Models
JavaScript `hay.includes(needle)` on the character level. -/
def listHasSub (needle : List Char) : List Char → Bool
  | [] => needle.isEmpty
  | c :: rest => listIsPref needle (c :: rest) || listHasSub needle rest

/-- JavaScript `hay.includes(needle)` for strings. -/
def strIncludes (hay needle : String) : Bool :=
  listHasSub needle.toList hay.toList

/-- JavaScript `toLowerCase` (character-wise, ASCII). -/
def lowerStr (s : String) : String :=
  String.mk (s.toList.map Char.toLower)

/-- Drop leading and trailing whitespace from a character list. -/
def trimWs (l : List Char) : List Char :=
  ((l.dropWhile Char.isWhitespace).reverse.dropWhile Char.isWhitespace).reverse

/-- JavaScript `trim`. -/
def trimStr (s : String) : String :=
  String.mk (trimWs s.toList)

/-- JavaScript `array.join(", ")`. -/
def joinCS : List String → String
  | [] => ""
  | [x] => x
  | x :: y :: rest => x ++ ", " ++ joinCS (y :: rest)

/-- JavaScript `s.split(", ")` on the character level: scan left to right,
cutting at every occurrence of the two-character separator. -/
def splitCS : List Char → List (List Char)
  | [] => [[]]
  | ',' :: ' ' :: rest => [] :: splitCS rest
  | c :: rest =>
    match splitCS rest with
    | [] => [[c]]
    | h :: t => (c :: h) :: t

/-- JavaScript `s.split(" ")` on the character level. -/
def splitSp : List Char → List (List Char)
  | [] => [[]]
  | ' ' :: rest => [] :: splitSp rest
  | c :: rest =>
    match splitSp rest with
    | [] => [[c]]
    | h :: t => (c :: h) :: t

/-! ### Discrepancy engine (`analyzeInvoice` and its data model) -/

/-- The rate card (`ContractRules` in the source). -/
structure ContractRules where
  zone_a_rate : ℚ
  zone_b_rate : ℚ
  zone_c_rate : ℚ
  cod_fee_percentage : ℚ
  rto_flat_fee : ℚ
deriving DecidableEq

/-- One canonical invoice row (`CsvRow` in the source).  Zone and order
type are kept as raw strings because `analyzeInvoice` reads them as
strings from untyped rows. -/
structure CsvRow where
  AWB : String
  OrderType : String
  BilledWeight : ℚ
  ActualWeight : ℚ
  BilledZone : String
  ActualZone : String
  TotalBilledAmount : ℚ
deriving DecidableEq

/-- One flagged shipment (`Discrepancy` in the source). -/
structure Discrepancy where
  awb_number : String
  issue_type : String
  billed_amount : ℚ
  correct_amount : ℚ
  difference : ℚ
deriving DecidableEq

/-- One audit run's output (`AnalysisResult` in the source). -/
structure AnalysisResult where
  discrepancies : List Discrepancy
  totalOvercharge : ℚ
  totalRows : ℕ
  totalBilled : ℚ
deriving DecidableEq

/-- `ZONE_RATE_MAP[actualZone]` followed by `rateKey ? contractRules[rateKey] : 0`:
the per-zone base rate, with 0 for any zone outside A/B/C. -/
def baseRate (rules : ContractRules) (zone : String) : ℚ :=
  if zone = "A" then rules.zone_a_rate
  else if zone = "B" then rules.zone_b_rate
  else if zone = "C" then rules.zone_c_rate
  else 0

/-- `expectedFreight = baseRate * billedWeight` (rate from the actual zone,
weight from the billed weight). -/
def expectedFreight (rules : ContractRules) (row : CsvRow) : ℚ :=
  baseRate rules row.ActualZone * row.BilledWeight

/-- Expected total including the COD fee when the order type is `"COD"`. -/
def expectedTotal (rules : ContractRules) (row : CsvRow) : ℚ :=
  let ef := expectedFreight rules row
  if row.OrderType = "COD" then ef + ef * rules.cod_fee_percentage / 100 else ef

/-- `difference = totalBilledAmount - expectedTotal` for one row. -/
def rowDifference (rules : ContractRules) (row : CsvRow) : ℚ :=
  row.TotalBilledAmount - expectedTotal rules row

/-- The list of issue labels pushed for one flagged row, in source order:
zone check, weight check, prepaid-COD check, then the catch-all. -/
def rowReasons (rules : ContractRules) (row : CsvRow) : List String :=
  let reasons :=
    (if row.BilledZone = row.ActualZone then [] else ["Zone Mismatch"]) ++
    (if row.ActualWeight < row.BilledWeight then ["Weight Overcharge"] else []) ++
    (if row.OrderType = "Prepaid" ∧ expectedFreight rules row + 1 < row.TotalBilledAmount
      then ["Invalid COD Charge"] else [])
  if reasons = [] then ["Rate Overcharge"] else reasons

/-- The per-row body of the `analyzeInvoice` loop: `none` when the row is
within tolerance (`difference <= 1`), otherwise the emitted `Discrepancy`. -/
def analyzeRow (rules : ContractRules) (row : CsvRow) : Option Discrepancy :=
  let diff := rowDifference rules row
  if diff ≤ 1 then none
  else some
    { awb_number := row.AWB
      issue_type := joinCS (rowReasons rules row)
      billed_amount := row.TotalBilledAmount
      correct_amount := round2 (expectedTotal rules row)
      difference := round2 diff }

/-- The discrepancy engine `analyzeInvoice` of `src/lib/audit-history.ts`
(billing engine): per-row analysis plus the three aggregate totals. -/
def analyzeInvoice (csvData : List CsvRow) (rules : ContractRules) : AnalysisResult :=
  let discrepancies := csvData.filterMap (analyzeRow rules)
  { discrepancies := discrepancies
    totalOvercharge := round2 ((discrepancies.map (fun d => d.difference)).sum)
    totalRows := csvData.length
    totalBilled := round2 ((csvData.map (fun r => r.TotalBilledAmount)).sum) }

/-! ### Audit-history categorization (`categorizeOvercharge`) -/

/-- Per-category overcharge buckets (`OverchargeByType` in the source). -/
structure OverchargeByType where
  weightMismatch : ℚ
  zoneMismatch : ℚ
  duplicateAWB : ℚ
  incorrectCOD : ℚ
  rtoMismatch : ℚ
  other : ℚ
deriving DecidableEq

/-- The zero bucket record. -/
def OverchargeByType.zero : OverchargeByType := ⟨0, 0, 0, 0, 0, 0⟩

/-- The if/else chain of `categorizeOvercharge`: add one label's share to
the first bucket whose keyword occurs in the lowercased label. -/
def addShare (o : OverchargeByType) (label : String) (share : ℚ) : OverchargeByType :=
  let lower := lowerStr label
  if strIncludes lower "weight" then { o with weightMismatch := o.weightMismatch + share }
  else if strIncludes lower "zone" then { o with zoneMismatch := o.zoneMismatch + share }
  else if strIncludes lower "duplicate" then { o with duplicateAWB := o.duplicateAWB + share }
  else if strIncludes lower "cod" then { o with incorrectCOD := o.incorrectCOD + share }
  else if strIncludes lower "rto" then { o with rtoMismatch := o.rtoMismatch + share }
  else { o with other := o.other + share }

/-- `d.issue_type.split(", ").map(t => t.trim())`. -/
def discLabels (d : Discrepancy) : List String :=
  (splitCS d.issue_type.toList).map (fun l => trimStr (String.mk l))

/-- Accumulate one discrepancy into the buckets: split its difference
evenly over its labels (`d.difference / (types.length || 1)`). -/
def addDiscrepancy (o : OverchargeByType) (d : Discrepancy) : OverchargeByType :=
  let types := discLabels d
  let share := d.difference / (if types.length = 0 then 1 else (types.length : ℚ))
  types.foldl (fun o t => addShare o t share) o

/-- `categorizeOvercharge` of `src/lib/audit-history.ts`: bucket the
discrepancy differences, then round every bucket to 2 decimals. -/
def categorizeOvercharge (ds : List Discrepancy) : OverchargeByType :=
  let raw := ds.foldl addDiscrepancy OverchargeByType.zero
  { weightMismatch := round2 raw.weightMismatch
    zoneMismatch := round2 raw.zoneMismatch
    duplicateAWB := round2 raw.duplicateAWB
    incorrectCOD := round2 raw.incorrectCOD
    rtoMismatch := round2 raw.rtoMismatch
    other := round2 raw.other }

/-- Sum of the six buckets. -/
def bucketSum (o : OverchargeByType) : ℚ :=
  o.weightMismatch + o.zoneMismatch + o.duplicateAWB + o.incorrectCOD + o.rtoMismatch + o.other

/-! ### Weight regression analyzer (`runRegression`) -/

/-- One declared/billed weight pair (`WeightDataPoint` in the source). -/
structure WeightDataPoint where
  provider : String
  awb : String
  declaredWeight_g : ℚ
  billedWeight_g : ℚ
  date : ℤ
deriving DecidableEq

/-- Per-provider regression output (`RegressionResult` in the source). -/
structure RegressionResult where
  provider : String
  pointCount : ℕ
  slope : ℚ
  intercept : ℚ
  r2 : ℚ
  avgOverchargePct : ℚ
deriving DecidableEq

/-- `Σx` over the point set. -/
def sumX (points : List WeightDataPoint) : ℚ :=
  (points.map (fun p => p.declaredWeight_g)).sum

/-- `Σy` over the point set. -/
def sumY (points : List WeightDataPoint) : ℚ :=
  (points.map (fun p => p.billedWeight_g)).sum

/-- `Σxy` over the point set. -/
def sumXY (points : List WeightDataPoint) : ℚ :=
  (points.map (fun p => p.declaredWeight_g * p.billedWeight_g)).sum

/-- `Σx²` over the point set. -/
def sumX2 (points : List WeightDataPoint) : ℚ :=
  (points.map (fun p => p.declaredWeight_g * p.declaredWeight_g)).sum

/-- The overcharge-ratio accumulator of the loop: only points with
declared weight strictly greater than 0 contribute. -/
def sumOverchargePct (points : List WeightDataPoint) : ℚ :=
  (points.map (fun p =>
    if 0 < p.declaredWeight_g
      then (p.billedWeight_g - p.declaredWeight_g) / p.declaredWeight_g
      else 0)).sum

/-- The least-squares denominator `n·Σx² − (Σx)²`. -/
def regDenom (points : List WeightDataPoint) : ℚ :=
  (points.length : ℚ) * sumX2 points - sumX points * sumX points

/-- `runRegression` of `src/lib/csv-normalizer.ts` (weight-regression
module): `none` below 30 points or on a zero denominator, otherwise the
rounded least-squares statistics. -/
def runRegression (points : List WeightDataPoint) : Option RegressionResult :=
  let n := points.length
  if n < 30 then none
  else
    let denom := regDenom points
    if denom = 0 then none
    else
      let m : ℚ := ((n : ℚ) * sumXY points - sumX points * sumY points) / denom
      let b : ℚ := (sumY points - m * sumX points) / (n : ℚ)
      let meanY : ℚ := sumY points / (n : ℚ)
      let ssTot : ℚ := (points.map (fun p => (p.billedWeight_g - meanY) ^ 2)).sum
      let ssRes : ℚ := (points.map (fun p =>
        (p.billedWeight_g - (m * p.declaredWeight_g + b)) ^ 2)).sum
      let r2 : ℚ := if ssTot = 0 then 1 else 1 - ssRes / ssTot
      some
        { provider := ((points.head?).map (fun p => p.provider)).getD ""
          pointCount := n
          slope := round4 m
          intercept := round2 b
          r2 := round4 r2
          avgOverchargePct := (jsRound (sumOverchargePct points / (n : ℚ) * 10000) : ℚ) / 100 }

/-- Modelled from the claim's words (refinement comparison for C3): the
mean, taken only over points whose declared weight is strictly positive,
of `(billed − declared)/declared × 100`, rounded to 2 decimals. -/
def claimAvgOverchargePct (points : List WeightDataPoint) : ℚ :=
  let pos := points.filter (fun p => decide (0 < p.declaredWeight_g))
  round2 (((pos.map (fun p =>
    (p.billedWeight_g - p.declaredWeight_g) / p.declaredWeight_g * 100)).sum) / (pos.length : ℚ))

/-- Sum of squares of a rational list. -/
def sqSum (xs : List ℚ) : ℚ := (xs.map (fun x => x * x)).sum

/-- The quantity `n·Σx² − (Σx)²` for a plain list of rationals. -/
def dList (xs : List ℚ) : ℚ := (xs.length : ℚ) * sqSum xs - xs.sum * xs.sum

/-- A concrete 30-point data set: 29 points with declared weight 1 g and
billed weight 2 g, one point with declared weight 0 g and billed 5 g. -/
def c3pts : List WeightDataPoint :=
  List.replicate 29 ⟨"P", "A1", 1, 2, 0⟩ ++ [⟨"P", "A0", 0, 5, 0⟩]

/-! ### Header locator (`findHeaderRow`) -/

/-- The keyword vocabulary of `findHeaderRow`. -/
def HEADER_KEYWORDS : List String :=
  ["awb", "zone", "weight", "amount", "type", "order",
   "pincode", "date", "cod", "shipment", "invoice", "billed",
   "actual", "freight", "tracking"]

/-- Number of distinct keywords occurring (as a substring, after
lowercasing and trimming) in some cell of the row. -/
def rowMatchCount (row : List String) : ℕ :=
  let cellsLower := row.map (fun c => trimStr (lowerStr c))
  (HEADER_KEYWORDS.filter (fun kw => cellsLower.any (fun cell => strIncludes cell kw))).length

/-- The `findHeaderRow` scan loop: index `i`, current best index and best
match count; rows with fewer than 2 cells are skipped, the loop stops at
index 10 or as soon as a row matches at least 4 keywords. -/
def findHeaderAux : List (List String) → ℕ → ℕ → ℕ → ℕ
  | [], _, bestIndex, _ => bestIndex
  | row :: rest, i, bestIndex, bestMatches =>
    if 10 ≤ i then bestIndex
    else if row.length < 2 then findHeaderAux rest (i + 1) bestIndex bestMatches
    else
      let mc := rowMatchCount row
      let best := if bestMatches < mc then (i, mc) else (bestIndex, bestMatches)
      if 4 ≤ mc then best.1
      else findHeaderAux rest (i + 1) best.1 best.2

/-- `findHeaderRow` of `src/lib/csv-normalizer.ts`. -/
def findHeaderRow (rows : List (List String)) : ℕ :=
  findHeaderAux rows 0 0 0

/-- Modelled from the claim's words (refinement comparison for C6): the
same scan, but a row is a candidate only when it has at least 2
NON-EMPTY cells. -/
def claimFindHeaderAux : List (List String) → ℕ → ℕ → ℕ → ℕ
  | [], _, bestIndex, _ => bestIndex
  | row :: rest, i, bestIndex, bestMatches =>
    if 10 ≤ i then bestIndex
    else if (row.filter (fun c => c ≠ "")).length < 2 then
      claimFindHeaderAux rest (i + 1) bestIndex bestMatches
    else
      let mc := rowMatchCount row
      let best := if bestMatches < mc then (i, mc) else (bestIndex, bestMatches)
      if 4 ≤ mc then best.1
      else claimFindHeaderAux rest (i + 1) best.1 best.2

/-- Claim-worded header locator (candidates need 2 non-empty cells). -/
def claimFindHeaderRow (rows : List (List String)) : ℕ :=
  claimFindHeaderAux rows 0 0 0

/-- The `(index, matchCount)` list of candidate rows: rows among the
first 10 having at least 2 cells, indexed from `i`. -/
def candListAux : List (List String) → ℕ → List (ℕ × ℕ)
  | [], _ => []
  | row :: rest, i =>
    if 10 ≤ i then []
    else if row.length < 2 then candListAux rest (i + 1)
    else (i, rowMatchCount row) :: candListAux rest (i + 1)

/-- Keep candidates up to and including the first one matching at least 4
keywords (the short-circuit of the scan). -/
def takeUntilStrong : List (ℕ × ℕ) → List (ℕ × ℕ)
  | [] => []
  | p :: rest => if 4 ≤ p.2 then [p] else p :: takeUntilStrong rest

/-- One step of the best-row tracking: replace only on a strictly larger
match count (ties keep the earlier row). -/
def pickBest (acc p : ℕ × ℕ) : ℕ × ℕ :=
  if acc.2 < p.2 then p else acc

/-- Largest match count in a candidate list. -/
def maxCount (l : List (ℕ × ℕ)) : ℕ :=
  (l.map (fun p => p.2)).foldr max 0

/-- Declarative form of the amended C6 claim: among candidate rows (at
least 2 cells, first 10 rows, cut at the first row with at least 4
matches) return the earliest row achieving the maximum keyword count, or
0 when no candidate matches any keyword. -/
def headerRowSpec (rows : List (List String)) : ℕ :=
  let considered := takeUntilStrong (candListAux rows 0)
  let m := maxCount considered
  if m = 0 then 0 else ((considered.find? (fun p => p.2 == m)).getD (0, 0)).1

/-! ### Column matcher (`detectColumns`) -/

/-- One character of `normalise`: keep lowercase letters, digits and the
space, turn everything else into a space (the regex replace with a space
of `[^a-z0-9 ]` after lowercasing). -/
def normChar (c : Char) : Char :=
  if ('a' ≤ c ∧ c ≤ 'z') ∨ ('0' ≤ c ∧ c ≤ '9') ∨ c = ' ' then c else ' '

/-- Collapse runs of spaces to a single space (`replace(/\s+/g, " ")`). -/
def collapseSp : List Char → List Char
  | [] => []
  | [c] => [c]
  | a :: b :: rest =>
    if a = ' ' ∧ b = ' ' then collapseSp (b :: rest)
    else a :: collapseSp (b :: rest)

/-- Drop leading and trailing spaces. -/
def trimSp (l : List Char) : List Char :=
  ((l.dropWhile (fun c => c = ' ')).reverse.dropWhile (fun c => c = ' ')).reverse

/-- The `normalise` helper of the column matcher: lowercase, replace
non-alphanumerics by spaces, collapse runs of spaces, trim. -/
def normalise (s : String) : String :=
  String.mk (trimSp (collapseSp (s.toList.map (fun c => normChar c.toLower))))

/-- Inner loop of the rolling-array Levenshtein: given the character
`ca = a[i-1]`, the remaining characters of `b`, the tail of the previous
row starting at `prev[j]`, the diagonal value `prev[j-1]` and the value
to the left `curr[j-1]`, produce `curr[j..n]`. -/
def levInner (ca : Char) : List Char → List ℕ → ℕ → ℕ → List ℕ
  | [], _, _, _ => []
  | cb :: bs, prevTail, diag, left =>
    let up := prevTail.headD 0
    let c := if ca = cb then diag else 1 + min up (min left diag)
    c :: levInner ca bs (prevTail.tailD []) up c

/-- Character edit distance, computed exactly as the source's rolling
single-row dynamic program. -/
def levenshtein (a b : String) : ℕ :=
  let bs := b.toList
  let fin := a.toList.foldl
    (fun (acc : ℕ × List ℕ) ca =>
      let i := acc.1 + 1
      let prev := acc.2
      let row := levInner ca bs (prev.tailD []) (prev.headD 0) i
      (i, i :: row))
    (0, List.range (bs.length + 1))
  fin.2.getLastD 0

/-- Words of a normalised string: split on single spaces, drop empties. -/
def splitWords (s : String) : List String :=
  ((splitSp s.toList).map String.mk).filter (fun w => w ≠ "")

/-- The `similarity` score of the column matcher: 1 on equal normalised
strings, 0.9 on containment, a Jaccard word-overlap score mapped into
[0.55, 0.90], else a length-penalised Levenshtein score. -/
def similarity (a b : String) : ℚ :=
  let na := normalise a
  let nb := normalise b
  if na = nb then 1
  else if strIncludes na nb ∨ strIncludes nb na then 9/10
  else
    let wa := (splitWords na).dedup
    let wb := (splitWords nb).dedup
    let inter := (wa.filter (fun w => w ∈ wb)).length
    let unionSize := (wa ++ wb).dedup.length
    if 0 < inter then 55/100 + ((inter : ℚ) / (unionSize : ℚ)) * (35/100)
    else
      let dist := levenshtein na nb
      let maxLen := max na.toList.length nb.toList.length
      if maxLen = 0 then 1 else max 0 (1 - (dist : ℚ) / (maxLen : ℚ))

/-- The curated synonym table (`VARIATIONS` in the source). -/
def VARIATIONS (canonical : String) : List String :=
  if canonical = "AWB" then
    ["awb", "awb no", "awb number", "awbno", "awbnumber", "awb_no",
     "airway bill", "airwaybill", "tracking number", "tracking no",
     "tracking_number", "shipment id", "consignment number", "consignment no",
     "waybill", "way bill", "docket number", "docket no"]
  else if canonical = "OrderType" then
    ["order type", "ordertype", "order_type", "type", "shipment type",
     "cod prepaid", "cod/prepaid", "payment type", "delivery type",
     "service type", "mode"]
  else if canonical = "BilledWeight" then
    ["billed weight", "billed wt", "billed_weight", "billedweight",
     "charged weight", "charge weight", "invoice weight", "invoiced weight",
     "chargeable weight", "chargeable wt", "applicable weight"]
  else if canonical = "ActualWeight" then
    ["actual weight", "actual wt", "actual_weight", "actualweight",
     "real weight", "dead weight", "dead wt", "physical weight",
     "declared weight", "package weight", "item weight", "gross weight"]
  else if canonical = "BilledZone" then
    ["billed zone", "zone", "delivery zone", "shipment zone",
     "charged zone", "invoice zone", "billing zone", "service zone",
     "applicable zone"]
  else if canonical = "ActualZone" then
    ["actual zone", "actual_zone", "correct zone", "calculated zone",
     "expected zone", "correct_zone"]
  else if canonical = "TotalBilledAmount" then
    ["total billed amount", "total", "invoice amount", "billed amount",
     "amount", "total amount", "charged amount", "invoice total",
     "net amount", "total charges", "billing amount", "freight charges",
     "total freight", "amount payable", "grand total"]
  else if canonical = "Length" then
    ["length", "len", "pkg length", "package length",
     "l (cm)", "length cm", "length(cm)"]
  else if canonical = "Width" then
    ["width", "wid", "pkg width", "package width",
     "w (cm)", "width cm", "width(cm)"]
  else if canonical = "Height" then
    ["height", "ht", "pkg height", "package height",
     "h (cm)", "height cm", "height(cm)"]
  else if canonical = "OriginPincode" then
    ["origin pincode", "origin pin", "origin_pincode", "from pincode",
     "source pincode", "pickup pincode", "origin pin code", "sender pincode",
     "source pin", "from pin", "origin zip", "pickup pin"]
  else if canonical = "DestPincode" then
    ["dest pincode", "destination pincode", "dest pin", "destination pin",
     "to pincode", "delivery pincode", "dest_pincode", "consignee pincode",
     "delivery pin", "to pin", "dest zip", "delivery zip"]
  else if canonical = "CODAmount" then
    ["cod amount", "cod charges", "cash on delivery", "cod_amount",
     "cod fee", "cod value", "cod charge", "cod"]
  else if canonical = "ShipmentDate" then
    ["shipment date", "date", "booking date", "ship date", "dispatch date",
     "created date", "invoice date", "order date", "manifest date"]
  else []

/-- The required canonical fields, in priority order. -/
def REQUIRED_CANONICAL : List String :=
  ["AWB", "OrderType", "BilledWeight", "ActualWeight",
   "BilledZone", "ActualZone", "TotalBilledAmount"]

/-- The optional canonical fields. -/
def OPTIONAL_CANONICAL : List String :=
  ["Length", "Width", "Height", "OriginPincode", "DestPincode",
   "CODAmount", "ShipmentDate"]

/-- All canonical fields, required first. -/
def ALL_CANONICAL : List String := REQUIRED_CANONICAL ++ OPTIONAL_CANONICAL

/-- Best similarity of a raw header against a canonical field: the field
name itself and every known variation, keeping the maximum. -/
def scoreAgainst (canonical raw : String) : ℚ :=
  (VARIATIONS canonical).foldl (fun best v => max best (similarity raw v))
    (similarity raw canonical)

/-- The candidate list for one canonical field: every raw header scoring
at least 0.4, sorted by score descending (stable, as the JS sort). -/
def candidatesFor (rawHeaders : List String) (canonical : String) : List (String × ℚ) :=
  (((rawHeaders.map (fun raw => (raw, scoreAgainst canonical raw))).filter
      (fun p => decide ((2 : ℚ)/5 ≤ p.2))).mergeSort
    (fun a b => decide (b.2 ≤ a.2)))

/-- The greedy assignment loop of `detectColumns`: walk the canonical
fields in order, give each the best-scoring raw header not yet claimed,
and record `(field, assigned header?, confidence)`. -/
def assignFold (rawHeaders : List String) : List String → List String → List (String × Option String × ℚ)
  | [], _ => []
  | c :: rest, used =>
    match (candidatesFor rawHeaders c).find? (fun p => decide (p.1 ∉ used)) with
    | some top => (c, some top.1, top.2) :: assignFold rawHeaders rest (top.1 :: used)
    | none => (c, none, 0) :: assignFold rawHeaders rest used

/-- The per-field assignment entries of `detectColumns`. -/
def detectEntries (rawHeaders : List String) : List (String × Option String × ℚ) :=
  assignFold rawHeaders ALL_CANONICAL []

/-- Auto-accept threshold (`CONFIDENCE_THRESHOLD` in the source). -/
def CONFIDENCE_THRESHOLD : ℚ := 8/10

/-- The column-matcher output (`DetectionResult` in the source); the two
record objects are modelled as association lists in field order. -/
structure DetectionResult where
  mapping : List (String × Option String)
  confidences : List (String × ℚ)
  lowConfidenceFields : List String
  needsManualReview : Bool
deriving DecidableEq

/-- `detectColumns` of `src/lib/csv-normalizer.ts` (column matcher). -/
def detectColumns (rawHeaders : List String) : DetectionResult :=
  let entries := detectEntries rawHeaders
  let lowConfidenceFields := REQUIRED_CANONICAL.filter (fun f =>
    let e := entries.find? (fun e => e.1 == f)
    decide ((e.map (fun e => e.2.2)).getD 0 < CONFIDENCE_THRESHOLD) ||
      (e.map (fun e => e.2.1) == some none))
  { mapping := entries.map (fun e => (e.1, e.2.1))
    confidences := entries.map (fun e => (e.1, e.2.2))
    lowConfidenceFields := lowConfidenceFields
    needsManualReview := !lowConfidenceFields.isEmpty }

/-! ### Weight normalizer (`normalizeWeight`) -/

/-- Untyped JavaScript values reaching `normalizeWeight`: null/undefined,
a number, or a string. -/
inductive JsValue where
  | vnull
  | vnum (q : ℚ)
  | vstr (s : String)
deriving DecidableEq

/-- Greedy match of the regex group `(\d+\.?\d*)`: the matched characters
and the rest of the input, or `none` when no leading digit exists. -/
def parseNumPart (l : List Char) : Option (List Char × List Char) :=
  let p := l.span Char.isDigit
  if p.1 = [] then none
  else
    match p.2 with
    | '.' :: rest2 =>
      let q := rest2.span Char.isDigit
      some (p.1 ++ '.' :: q.1, q.2)
    | _ => some (p.1, p.2)

/-- Drop one optional occurrence of `c` at the head (a `c?` regex atom). -/
def dropOpt (c : Char) : List Char → List Char
  | [] => []
  | x :: xs => if x = c then xs else x :: xs

/-- Does `l` match `\s*gr?a?m?s?$`? -/
def isGramSuffix (l : List Char) : Bool :=
  match l.dropWhile Char.isWhitespace with
  | 'g' :: rest => dropOpt 's' (dropOpt 'm' (dropOpt 'a' (dropOpt 'r' rest))) = []
  | _ => false

/-- Does `l` match `\s*kgs?$`? -/
def isKgSuffix (l : List Char) : Bool :=
  match l.dropWhile Char.isWhitespace with
  | 'k' :: 'g' :: rest => dropOpt 's' rest = []
  | _ => false

/-- Match `^(\d+\.?\d*)\s*gr?a?m?s?$`, returning the number group. -/
def matchGram (l : List Char) : Option (List Char) :=
  match parseNumPart l with
  | some p => if isGramSuffix p.2 then some p.1 else none
  | none => none

/-- Match `^(\d+\.?\d*)\s*kgs?$`, returning the number group. -/
def matchKg (l : List Char) : Option (List Char) :=
  match parseNumPart l with
  | some p => if isKgSuffix p.2 then some p.1 else none
  | none => none

/-- Numeric value of a digit string. -/
def digitsVal (ds : List Char) : ℕ :=
  ds.foldl (fun a c => a * 10 + (c.toNat - 48)) 0

/-- Model of JavaScript `parseFloat`: leading whitespace, optional sign,
decimal digits with an optional fraction, optional exponent; `none` for
input with no leading number (JS `NaN`). -/
def parseFloatQ (s : List Char) : Option ℚ :=
  let l0 := s.dropWhile Char.isWhitespace
  let sl := match l0 with
    | '-' :: t => ((-1 : ℚ), t)
    | '+' :: t => ((1 : ℚ), t)
    | _ => ((1 : ℚ), l0)
  let ip := sl.2.span Char.isDigit
  let fp := match ip.2 with
    | '.' :: t => t.span Char.isDigit
    | _ => ([], ip.2)
  if ip.1 = [] ∧ fp.1 = [] then none
  else
    let mant : ℚ := (digitsVal ip.1 : ℚ) + (digitsVal fp.1 : ℚ) / (10 ^ fp.1.length : ℚ)
    let q := sl.1 * mant
    match fp.2 with
    | 'e' :: t =>
      let et := match t with
        | '-' :: u => ((-1 : ℤ), u)
        | '+' :: u => ((1 : ℤ), u)
        | _ => ((1 : ℤ), t)
      let ed := et.1 * (digitsVal (et.2.takeWhile Char.isDigit) : ℤ)
      if et.2.takeWhile Char.isDigit = [] then some q else some (q * (10 : ℚ) ^ ed)
    | 'E' :: t =>
      let et := match t with
        | '-' :: u => ((-1 : ℤ), u)
        | '+' :: u => ((1 : ℤ), u)
        | _ => ((1 : ℤ), t)
      let ed := et.1 * (digitsVal (et.2.takeWhile Char.isDigit) : ℤ)
      if et.2.takeWhile Char.isDigit = [] then some q else some (q * (10 : ℚ) ^ ed)
    | _ => some q

/-- `normalizeWeight` of `src/lib/csv-normalizer.ts`: null/empty to 0,
numbers pass through, gram strings divided by 1000, kg strings and plain
numeric strings parsed, anything unparseable 0. -/
def normalizeWeight : JsValue → ℚ
  | .vnull => 0
  | .vnum q => q
  | .vstr s =>
    if s = "" then 0
    else
      let str := trimStr (lowerStr s)
      let l := str.toList
      match matchGram l with
      | some num => ((parseFloatQ num).getD 0) / 1000
      | none =>
        match matchKg l with
        | some num => (parseFloatQ num).getD 0
        | none => (parseFloatQ l).getD 0

/-! ### General lemmas -/

/-- Rounding to two decimals moves a rational by at most 1/200. -/
theorem abs_round2_sub_le (q : ℚ) : |round2 q - q| ≤ 1/200 := by
  have h1 : (⌊q * 100 + 1/2⌋ : ℚ) ≤ q * 100 + 1/2 := Int.floor_le _
  have h2 : q * 100 + 1/2 < (⌊q * 100 + 1/2⌋ : ℚ) + 1 := Int.lt_floor_add_one _
  have hrepr : round2 q - q = ((⌊q * 100 + 1/2⌋ : ℚ) - (q * 100 + 1/2) + 1/2) / 100 := by
    unfold round2 jsRound
    ring
  rw [hrepr, abs_le]
  constructor
  · rw [le_div_iff (by norm_num : (0:ℚ) < 100)]
    linarith
  · rw [div_le_iff (by norm_num : (0:ℚ) < 100)]
    linarith

/-- Length of `filterMap` counts the inputs on which the function fires. -/
theorem length_filterMap_eq_countP {α β : Type} (f : α → Option β) (l : List α) :
    (l.filterMap f).length = l.countP (fun a => (f a).isSome) := by
  induction l with
  | nil => rfl
  | cons a t ih =>
    cases h : f a <;>
      simp [List.filterMap_cons, List.countP_cons, h, ih]

/-- A sum of nonnegative rationals vanishes only when every term does. -/
theorem list_sum_eq_zero_of_nonneg {l : List ℚ} (h : ∀ x ∈ l, 0 ≤ x) (hs : l.sum = 0) :
    ∀ x ∈ l, x = 0 := by
  induction l with
  | nil => simp
  | cons a t ih =>
    have ha : 0 ≤ a := h a (List.mem_cons_self a t)
    have ht : ∀ x ∈ t, 0 ≤ x := fun x hx => h x (List.mem_cons_of_mem a hx)
    have hts : 0 ≤ t.sum := List.sum_nonneg ht
    have hsum : a + t.sum = 0 := by simpa using hs
    have ha0 : a = 0 := le_antisymm (by linarith) ha
    have ht0 : t.sum = 0 := by linarith
    intro x hx
    rcases List.mem_cons.mp hx with rfl | hx
    · exact ha0
    · exact ih ht ht0 x hx

/-! ### Claims about the discrepancy engine -/

/-- C1 (counterexample): on the C1 contract and row, `analyzeInvoice`
emits one discrepancy, but its issue label is "Invalid COD Charge", not
the claimed "Rate Overcharge": the Prepaid COD check fires because
45 exceeds expectedFreight + 1 = 41. -/
theorem c1_rate_overcharge_label_false :
    ((analyzeInvoice [⟨"X1", "Prepaid", 1, 1, "A", "A", 45⟩]
        ⟨40, 55, 75, 3/2, 0⟩).discrepancies.map (fun d => d.issue_type))
      = ["Invalid COD Charge"] ∧
    ("Invalid COD Charge" : String) ≠ "Rate Overcharge" := by
  constructor
  · with_unfolding_all decide
  · decide

/-- C1 (amended): for the contract {40, 55, 75, 1.5} and the row X1,
`analyzeInvoice` computes expectedFreight 40, expectedTotal 40 and
difference 5, and emits exactly one discrepancy, labelled
"Invalid COD Charge" (the Prepaid COD check fires; no zone or weight
check does), with correct_amount 40 and difference 5. -/
theorem c1_scenario :
    expectedFreight ⟨40, 55, 75, 3/2, 0⟩ ⟨"X1", "Prepaid", 1, 1, "A", "A", 45⟩ = 40 ∧
    expectedTotal ⟨40, 55, 75, 3/2, 0⟩ ⟨"X1", "Prepaid", 1, 1, "A", "A", 45⟩ = 40 ∧
    rowDifference ⟨40, 55, 75, 3/2, 0⟩ ⟨"X1", "Prepaid", 1, 1, "A", "A", 45⟩ = 5 ∧
    analyzeInvoice [⟨"X1", "Prepaid", 1, 1, "A", "A", 45⟩] ⟨40, 55, 75, 3/2, 0⟩
      = ⟨[⟨"X1", "Invalid COD Charge", 45, 40, 5⟩], 5, 1, 45⟩ := by
  refine ⟨?_, ?_, ?_, ?_⟩ <;> with_unfolding_all decide

/-- C2: the tolerance is a strict boundary.  A row produces a discrepancy
exactly when its difference (TotalBilledAmount − expectedTotal) is
strictly greater than 1, and over a whole run the number of recorded
discrepancies is the number of rows whose difference exceeds 1. -/
theorem c2_tolerance_strict_boundary (rules : ContractRules) (row : CsvRow)
    (rows : List CsvRow) :
    ((analyzeRow rules row).isSome = decide (1 < rowDifference rules row)) ∧
    (analyzeInvoice rows rules).discrepancies.length
      = rows.countP (fun r => decide (1 < rowDifference rules r)) := by
  have key : ∀ r : CsvRow, (analyzeRow rules r).isSome = decide (1 < rowDifference rules r) := by
    intro r
    by_cases h : rowDifference rules r ≤ 1
    · simp [analyzeRow, h, not_lt.mpr h]
    · simp [analyzeRow, h, lt_of_not_le h]
  refine ⟨key row, ?_⟩
  show (rows.filterMap (analyzeRow rules)).length = _
  rw [length_filterMap_eq_countP]
  exact List.countP_congr (fun r _ => by rw [key r])

/-- C9: for a row whose ActualZone is none of "A", "B", "C" the engine
resolves the base rate to 0, hence expectedTotal is 0 (also under the
COD multiplier), and when TotalBilledAmount exceeds 1 the row is flagged
with correct_amount 0 and the (2-decimal rounded) full billed amount as
the difference; no error occurs. -/
theorem c9_unknown_zone_rate_zero (rules : ContractRules) (row : CsvRow)
    (hA : row.ActualZone ≠ "A") (hB : row.ActualZone ≠ "B") (hC : row.ActualZone ≠ "C") :
    baseRate rules row.ActualZone = 0 ∧
    expectedTotal rules row = 0 ∧
    (1 < row.TotalBilledAmount →
      (analyzeRow rules row).map (fun d => (d.correct_amount, d.difference))
        = some (0, round2 row.TotalBilledAmount)) := by
  have hbase : baseRate rules row.ActualZone = 0 := by
    simp [baseRate, hA, hB, hC]
  have hfreight : expectedFreight rules row = 0 := by
    simp [expectedFreight, hbase]
  have htot : expectedTotal rules row = 0 := by
    simp only [expectedTotal, hfreight]
    split <;> ring
  refine ⟨hbase, htot, fun hgt => ?_⟩
  have hdiff : rowDifference rules row = row.TotalBilledAmount := by
    simp [rowDifference, htot]
  have hnot : ¬ rowDifference rules row ≤ 1 := by rw [hdiff]; exact not_le.mpr hgt
  have hrow : analyzeRow rules row = some
      { awb_number := row.AWB
        issue_type := joinCS (rowReasons rules row)
        billed_amount := row.TotalBilledAmount
        correct_amount := round2 (expectedTotal rules row)
        difference := round2 (rowDifference rules row) } := by
    simp only [analyzeRow]
    rw [if_neg hnot]
  rw [hrow, Option.map_some']
  rw [htot, hdiff]
  have h0 : round2 (0 : ℚ) = 0 := by with_unfolding_all decide
  rw [h0]

/-- Witness for C9 at a concrete input: zone "D", a COD order billed 50
under the {40, 55, 75, 1.5} contract. -/
theorem c9_unknown_zone_rate_zero_witness :
    baseRate ⟨40, 55, 75, 3/2, 0⟩ "D" = 0 ∧
    expectedTotal ⟨40, 55, 75, 3/2, 0⟩ ⟨"X9", "COD", 2, 2, "A", "D", 50⟩ = 0 ∧
    (analyzeRow ⟨40, 55, 75, 3/2, 0⟩ ⟨"X9", "COD", 2, 2, "A", "D", 50⟩).map
      (fun d => (d.correct_amount, d.difference)) = some (0, 50) := by
  have h := c9_unknown_zone_rate_zero ⟨40, 55, 75, 3/2, 0⟩
    ⟨"X9", "COD", 2, 2, "A", "D", 50⟩ (by decide) (by decide) (by decide)
  refine ⟨h.1, h.2.1, ?_⟩
  have h50 : round2 (50 : ℚ) = 50 := by with_unfolding_all decide
  have hto := h.2.2 (by norm_num)
  rw [hto, h50]

/-! ### Claims about the value normalizer -/

/-- C7: `normalizeWeight` is idempotent on its own output (a number is
returned as-is), and the strings "500g" and "0.5kg" both normalise to
0.5 kilograms. -/
theorem c7_normalizeWeight_idempotent (v : JsValue) :
    normalizeWeight (.vnum (normalizeWeight v)) = normalizeWeight v ∧
    normalizeWeight (.vstr "500g") = 1/2 ∧
    normalizeWeight (.vstr "0.5kg") = 1/2 := by
  refine ⟨rfl, ?_, ?_⟩ <;> with_unfolding_all decide

/-! ### Claims about the regression analyzer -/

/-- Sum of squared deviations of one element against a list. -/
theorem sum_map_sub_sq (x : ℚ) (t : List ℚ) :
    (t.map (fun y => (x - y) * (x - y))).sum
      = (t.length : ℚ) * (x * x) - 2 * x * t.sum + sqSum t := by
  induction t with
  | nil => simp [sqSum]
  | cons a s ih =>
    simp only [List.map_cons, List.sum_cons, List.length_cons, sqSum] at *
    push_cast
    rw [ih]
    ring

/-- The least-squares denominator over a plain list is nonnegative, and
vanishes exactly when all entries are equal. -/
theorem dList_nonneg_and_zero_iff (xs : List ℚ) :
    0 ≤ dList xs ∧ (dList xs = 0 ↔ ∀ a ∈ xs, ∀ b ∈ xs, a = b) := by
  induction xs with
  | nil => simp [dList, sqSum]
  | cons x t ih =>
    have hstep : dList (x :: t) = dList t + (t.map (fun y => (x - y) * (x - y))).sum := by
      rw [sum_map_sub_sq]
      simp only [dList, sqSum, List.length_cons, List.map_cons, List.sum_cons]
      push_cast
      ring
    have hterm : ∀ z ∈ t.map (fun y => (x - y) * (x - y)), 0 ≤ z := by
      intro z hz
      rcases List.mem_map.mp hz with ⟨y, _, rfl⟩
      exact mul_self_nonneg _
    have hsq : 0 ≤ (t.map (fun y => (x - y) * (x - y))).sum := List.sum_nonneg hterm
    refine ⟨by rw [hstep]; linarith [ih.1], ?_⟩
    constructor
    · intro h0
      have ht0 : dList t = 0 := by
        rw [hstep] at h0
        linarith [ih.1, hsq]
      have hs0 : (t.map (fun y => (x - y) * (x - y))).sum = 0 := by
        rw [hstep] at h0
        linarith [ih.1, hsq]
      have hall : ∀ y ∈ t, y = x := by
        intro y hy
        have := list_sum_eq_zero_of_nonneg hterm hs0 ((x - y) * (x - y))
          (List.mem_map.mpr ⟨y, hy, rfl⟩)
        have hxy : x - y = 0 := by
          by_contra hne
          exact hne (by nlinarith [sq_nonneg (x - y)])
        linarith
      intro a ha b hb
      have hax : a = x := by
        rcases List.mem_cons.mp ha with h | h
        · exact h
        · exact hall a h
      have hbx : b = x := by
        rcases List.mem_cons.mp hb with h | h
        · exact h
        · exact hall b h
      rw [hax, hbx]
    · intro hall
      have hxt : ∀ y ∈ t, y = x := fun y hy =>
        hall y (List.mem_cons_of_mem x hy) x (List.mem_cons_self x t)
      have ht0 : dList t = 0 := (ih.2).mpr
        (fun a ha b hb => hall a (List.mem_cons_of_mem x ha) b (List.mem_cons_of_mem x hb))
      have hs0 : (t.map (fun y => (x - y) * (x - y))).sum = 0 := by
        have : t.map (fun y => (x - y) * (x - y)) = t.map (fun _ => (0 : ℚ)) := by
          apply List.map_congr_left
          intro y hy
          rw [hxt y hy]
          ring
        rw [this]
        simp
      rw [hstep, ht0, hs0]
      ring

/-- The regression denominator is the `dList` of the declared weights. -/
theorem regDenom_eq_dList (points : List WeightDataPoint) :
    regDenom points = dList (points.map (fun p => p.declaredWeight_g)) := by
  simp only [regDenom, dList, sumX2, sumX, sqSum, List.map_map, List.length_map]
  rfl

/-- C4: `runRegression` returns `none` exactly when there are fewer than
30 points or the denominator `n·Σx² − (Σx)²` is zero, and that denominator
is zero exactly when all declared weights are identical.  In every other
case a result record is returned (the function is total: no exception and,
in this rational model, no NaN can arise). -/
theorem c4_runRegression_none_iff (points : List WeightDataPoint) :
    (runRegression points = none ↔ points.length < 30 ∨ regDenom points = 0) ∧
    (regDenom points = 0 ↔
      ∀ p ∈ points, ∀ q ∈ points, p.declaredWeight_g = q.declaredWeight_g) := by
  constructor
  · by_cases h30 : points.length < 30
    · simp [runRegression, h30]
    · by_cases hd : regDenom points = 0
      · simp [runRegression, h30, hd]
      · simp [runRegression, h30, hd]
  · rw [regDenom_eq_dList]
    rw [(dList_nonneg_and_zero_iff (points.map (fun p => p.declaredWeight_g))).2]
    constructor
    · intro h p hp q hq
      exact h _ (List.mem_map.mpr ⟨p, hp, rfl⟩) _ (List.mem_map.mpr ⟨q, hq, rfl⟩)
    · intro h a ha b hb
      rcases List.mem_map.mp ha with ⟨p, hp, rfl⟩
      rcases List.mem_map.mp hb with ⟨q, hq, rfl⟩
      exact h p hp q hq

/-- The value of `runRegression` on the concrete 30-point data set,
established through the closed-form sums rather than raw evaluation. -/
theorem runRegression_c3pts :
    runRegression c3pts = some ⟨"P", 30, -3, 5, 1, 9667/100⟩ := by
  have hlen : c3pts.length = 30 := by simp [c3pts]
  have hx : sumX c3pts = 29 := by simp [sumX, c3pts]; norm_num
  have hy : sumY c3pts = 63 := by simp [sumY, c3pts]; norm_num
  have hxy : sumXY c3pts = 58 := by simp [sumXY, c3pts]; norm_num
  have hx2 : sumX2 c3pts = 29 := by simp [sumX2, c3pts]; norm_num
  have hp : sumOverchargePct c3pts = 29 := by simp [sumOverchargePct, c3pts]; norm_num
  have hdn : regDenom c3pts = 29 := by rw [regDenom, hlen, hx, hx2]; norm_num
  rw [runRegression, hlen]
  rw [if_neg (by norm_num)]
  simp only [hdn, hx, hy, hxy, hx2, hp]
  rw [if_neg (by norm_num)]
  norm_num [round4, round2, jsRound]
  constructor
  · simp [c3pts]
  · norm_num [c3pts]

/-- C3 (counterexample): on `c3pts` (one point has declared weight 0, the
29 others declared 1 and billed 2) the code returns avgOverchargePct
96.67 — the positive-point percentage sum divided by all 30 points —
while the claimed mean over the 29 positive-declared points is 100. -/
theorem c3_mean_over_positive_false :
    (runRegression c3pts).map (fun r => r.avgOverchargePct) = some (9667/100) ∧
    claimAvgOverchargePct c3pts = 100 ∧
    ((9667 : ℚ)/100) ≠ 100 := by
  refine ⟨?_, ?_, by norm_num⟩
  · rw [runRegression_c3pts]
    rfl
  · rw [claimAvgOverchargePct]
    simp only [c3pts]
    norm_num [round2, jsRound, List.filter]

/-- C3 (amended): whenever `runRegression` returns a result, its
avgOverchargePct is the sum, over points with declared weight strictly
greater than 0, of the overcharge ratios, divided by the TOTAL number of
points `n` and scaled to a percentage, rounded to 2 decimals. -/
theorem c3_avg_overcharge_formula (points : List WeightDataPoint) (r : RegressionResult)
    (h : runRegression points = some r) :
    r.avgOverchargePct = round2 (sumOverchargePct points / (points.length : ℚ) * 100) := by
  by_cases h30 : points.length < 30
  · simp [runRegression, h30] at h
  · by_cases hd : regDenom points = 0
    · simp [runRegression, h30, hd] at h
    · simp only [runRegression, h30, if_false, hd] at h
      have hr := (Option.some.injEq _ _).mp h
      have : r.avgOverchargePct
          = (jsRound (sumOverchargePct points / (points.length : ℚ) * 10000) : ℚ) / 100 := by
        rw [← hr]
      rw [this, round2, jsRound, jsRound]
      have harg : sumOverchargePct points / (points.length : ℚ) * 100 * 100
          = sumOverchargePct points / (points.length : ℚ) * 10000 := by ring
      rw [harg]

/-- Witness for C3 (amended) at the concrete 30-point data set. -/
theorem c3_avg_overcharge_formula_witness :
    round2 (sumOverchargePct c3pts / (c3pts.length : ℚ) * 100) = 9667/100 := by
  exact (c3_avg_overcharge_formula c3pts ⟨"P", 30, -3, 5, 1, 9667/100⟩
    runRegression_c3pts).symm

/-! ### Claims about the audit-history categorization -/

/-- Splitting a character list at ", " never yields an empty list of parts. -/
theorem splitCS_ne_nil (l : List Char) : splitCS l ≠ [] := by
  induction l using splitCS.induct with
  | case1 => simp [splitCS]
  | case2 rest ih => simp [splitCS]
  | case3 c rest hcond hnil ih => exact absurd hnil ih
  | case4 c rest hcond h t hsplit ih =>
    rw [splitCS.eq_def]
    split
    · simp
    · next c2 rest2 heq =>
      injection heq with h1 h2
      exact absurd (hcond rest2 h1 h2).elim id
    · next c2 rest2 hcond2 heq =>
      injection heq with e1 e2
      subst e1
      subst e2
      rw [hsplit]
      simp

/-- Every discrepancy has at least one label. -/
theorem discLabels_ne_nil (d : Discrepancy) : discLabels d ≠ [] := by
  rw [discLabels]
  intro h
  exact splitCS_ne_nil _ (List.map_eq_nil.mp h)

/-- Adding one label's share raises the bucket total by exactly the share
(every label lands in exactly one bucket). -/
theorem bucketSum_addShare (o : OverchargeByType) (t : String) (s : ℚ) :
    bucketSum (addShare o t s) = bucketSum o + s := by
  rw [addShare]
  split_ifs <;> simp [bucketSum] <;> ring

/-- Folding the labels of one discrepancy adds `length * share`. -/
theorem bucketSum_fold_labels (types : List String) (share : ℚ) (o : OverchargeByType) :
    bucketSum (types.foldl (fun o t => addShare o t share) o)
      = bucketSum o + (types.length : ℚ) * share := by
  induction types generalizing o with
  | nil => simp
  | cons t rest ih =>
    rw [List.foldl_cons, ih, bucketSum_addShare, List.length_cons]
    push_cast
    ring

/-- Accumulating one discrepancy raises the bucket total by exactly its
difference: the even split over its labels adds back up. -/
theorem bucketSum_addDiscrepancy (o : OverchargeByType) (d : Discrepancy) :
    bucketSum (addDiscrepancy o d) = bucketSum o + d.difference := by
  rw [addDiscrepancy]
  rw [bucketSum_fold_labels]
  have hne : (discLabels d).length ≠ 0 :=
    fun h => discLabels_ne_nil d (List.length_eq_zero.mp h)
  rw [if_neg hne]
  have hq : ((discLabels d).length : ℚ) ≠ 0 := Nat.cast_ne_zero.mpr hne
  field_simp

/-- The raw (pre-rounding) bucket total equals the sum of differences. -/
theorem bucketSum_fold_discrepancies (ds : List Discrepancy) (o : OverchargeByType) :
    bucketSum (ds.foldl addDiscrepancy o)
      = bucketSum o + (ds.map (fun d => d.difference)).sum := by
  induction ds generalizing o with
  | nil => simp
  | cons d rest ih =>
    rw [List.foldl_cons, ih, bucketSum_addDiscrepancy, List.map_cons, List.sum_cons]
    ring

/-- C8: the six buckets of `categorizeOvercharge`, computed from the
discrepancies of an `analyzeInvoice` run, sum to the run's
totalOvercharge within rounding tolerance (each of the six buckets and
the total are rounded once to 2 decimals, so the gap is at most 0.035);
and a dual-labelled discrepancy of 10 contributes 5 to each of its two
buckets, illustrating the even split across comma-joined labels. -/
theorem c8_buckets_sum_within_tolerance (csvData : List CsvRow) (rules : ContractRules) :
    |bucketSum (categorizeOvercharge (analyzeInvoice csvData rules).discrepancies)
        - (analyzeInvoice csvData rules).totalOvercharge| ≤ 7/200 ∧
    categorizeOvercharge [⟨"A1", "Zone Mismatch, Weight Overcharge", 20, 10, 10⟩]
      = ⟨5, 5, 0, 0, 0, 0⟩ := by
  constructor
  · set ds := (analyzeInvoice csvData rules).discrepancies with hds
    set S := (ds.map (fun d => d.difference)).sum with hS
    have htot : (analyzeInvoice csvData rules).totalOvercharge = round2 S := rfl
    set raw := ds.foldl addDiscrepancy OverchargeByType.zero with hraw
    have hrawsum : bucketSum raw = S := by
      rw [hraw, bucketSum_fold_discrepancies]
      simp [bucketSum, OverchargeByType.zero]
    have hcat : bucketSum (categorizeOvercharge ds)
        = round2 raw.weightMismatch + round2 raw.zoneMismatch + round2 raw.duplicateAWB
          + round2 raw.incorrectCOD + round2 raw.rtoMismatch + round2 raw.other := by
      rw [categorizeOvercharge]
      simp [bucketSum, hraw]
    have h1 := abs_round2_sub_le raw.weightMismatch
    have h2 := abs_round2_sub_le raw.zoneMismatch
    have h3 := abs_round2_sub_le raw.duplicateAWB
    have h4 := abs_round2_sub_le raw.incorrectCOD
    have h5 := abs_round2_sub_le raw.rtoMismatch
    have h6 := abs_round2_sub_le raw.other
    have h7 := abs_round2_sub_le S
    rw [abs_le] at h1 h2 h3 h4 h5 h6 h7
    have hsum : raw.weightMismatch + raw.zoneMismatch + raw.duplicateAWB
        + raw.incorrectCOD + raw.rtoMismatch + raw.other = S := by
      rw [← hrawsum]
      rfl
    rw [htot, hcat, abs_le]
    constructor <;> linarith
  · with_unfolding_all decide

/-! ### Claims about the header locator -/

/-- The scan loop of `findHeaderRow` is the fold of the strict-improvement
step over the candidate rows, cut at the first strong (≥4 matches) row. -/
theorem findHeaderAux_eq (rows : List (List String)) :
    ∀ i bi bm : ℕ, findHeaderAux rows i bi bm
      = ((takeUntilStrong (candListAux rows i)).foldl pickBest (bi, bm)).1 := by
  induction rows with
  | nil =>
    intro i bi bm
    simp [findHeaderAux, candListAux, takeUntilStrong]
  | cons row rest ih =>
    intro i bi bm
    by_cases h10 : 10 ≤ i
    · simp [findHeaderAux, candListAux, h10, takeUntilStrong]
    · by_cases hlen : row.length < 2
      · simp only [findHeaderAux, candListAux, if_neg h10, if_pos hlen]
        exact ih (i + 1) bi bm
      · simp only [findHeaderAux, candListAux, if_neg h10, if_neg hlen]
        by_cases h4 : 4 ≤ rowMatchCount row
        · rw [takeUntilStrong, if_pos h4, if_pos h4]
          simp [pickBest]
        · rw [takeUntilStrong, if_neg h4, if_neg h4, List.foldl_cons]
          rw [ih (i + 1)]
          by_cases hbm : bm < rowMatchCount row <;> simp [pickBest, hbm]

/-- Folding `pickBest` returns the accumulator when nothing beats it, and
otherwise the first list entry achieving the maximum count. -/
theorem foldl_pickBest_spec (l : List (ℕ × ℕ)) :
    ∀ acc : ℕ × ℕ,
      (maxCount l ≤ acc.2 → l.foldl pickBest acc = acc) ∧
      (acc.2 < maxCount l → ∃ q, l.find? (fun p => p.2 == maxCount l) = some q ∧
        l.foldl pickBest acc = q) := by
  induction l with
  | nil =>
    intro acc
    exact ⟨fun _ => rfl, fun h => absurd h (by simp [maxCount])⟩
  | cons p t ih =>
    intro acc
    have hM : maxCount (p :: t) = max p.2 (maxCount t) := by simp [maxCount]
    constructor
    · intro hle
      rw [hM] at hle
      have hc : p.2 ≤ acc.2 := le_trans (le_max_left _ _) hle
      have hmt : maxCount t ≤ acc.2 := le_trans (le_max_right _ _) hle
      rw [List.foldl_cons, pickBest, if_neg (not_lt.mpr hc)]
      exact (ih acc).1 hmt
    · intro hlt
      rw [hM] at hlt
      by_cases hceq : p.2 = max p.2 (maxCount t)
      · have hmt : maxCount t ≤ p.2 := max_eq_left_iff.mp hceq.symm
        have hacc : acc.2 < p.2 := by rw [hceq]; exact hlt
        refine ⟨p, ?_, ?_⟩
        · apply List.find?_cons_of_pos
          rw [hM, ← hceq]
          exact beq_self_eq_true p.2
        · rw [List.foldl_cons, pickBest, if_pos hacc]
          exact (ih p).1 hmt
      · have hmax : max p.2 (maxCount t) = maxCount t := by
          rcases max_choice p.2 (maxCount t) with h | h
          · exact absurd h.symm hceq
          · exact h
        have hpne : p.2 ≠ maxCount t := by
          intro e
          exact hceq (by rw [e, max_self])
        have hacc2 : (pickBest acc p).2 < maxCount t := by
          rw [pickBest]
          by_cases hb : acc.2 < p.2
          · rw [if_pos hb]
            exact lt_of_le_of_ne (by rw [← hmax]; exact le_max_left _ _) hpne
          · rw [if_neg hb]
            rw [hmax] at hlt
            exact hlt
        obtain ⟨q, hfq, hfold⟩ := (ih (pickBest acc p)).2 hacc2
        refine ⟨q, ?_, ?_⟩
        · rw [hM, hmax]
          rw [List.find?_cons_of_neg]
          · exact hfq
          · simp only [beq_iff_eq]
            exact hpne
        · rw [List.foldl_cons]
          exact hfold

/-- C6 (counterexample): `findHeaderRow` treats a row with 2 cells of
which only one is non-empty as a candidate (the source checks
`row.length < 2`, the cell count, not the non-empty cell count).  On
this grid the first row has one non-empty cell matching 4 keywords, so
the code returns 0, while the claim's algorithm (candidates need 2
NON-EMPTY cells) would skip it and return 1. -/
theorem c6_nonempty_cells_false :
    findHeaderRow [["awb zone weight amount", ""],
      ["awb", "zone", "weight", "amount", "type"]] = 0 ∧
    claimFindHeaderRow [["awb zone weight amount", ""],
      ["awb", "zone", "weight", "amount", "type"]] = 1 ∧
    (0 : ℕ) ≠ 1 := by
  refine ⟨?_, ?_, by decide⟩
  · with_unfolding_all decide
  · with_unfolding_all decide

/-- C6 (amended): candidates are the rows with at least 2 CELLS among
the first 10 rows.  Among candidates up to and including the first one
matching at least 4 distinct keywords (the short-circuit), the function
returns the index of the row matching the most distinct keywords
(substring, case-insensitive), preferring the earlier row on ties, and
returns 0 when no candidate matches any keyword. -/
theorem c6_header_row_characterization (rows : List (List String)) :
    findHeaderRow rows = headerRowSpec rows := by
  rw [findHeaderRow, findHeaderAux_eq rows 0 0 0]
  simp only [headerRowSpec]
  by_cases hm : maxCount (takeUntilStrong (candListAux rows 0)) = 0
  · rw [if_pos hm]
    have h := (foldl_pickBest_spec (takeUntilStrong (candListAux rows 0)) (0, 0)).1
      (le_of_eq hm)
    rw [h]
  · rw [if_neg hm]
    obtain ⟨q, hfq, hfold⟩ := (foldl_pickBest_spec (takeUntilStrong (candListAux rows 0))
      (0, 0)).2 (Nat.pos_of_ne_zero hm)
    rw [hfold, hfq, Option.getD_some]

/-! ### Claims about the column matcher -/

/-- The assigned raw headers produced by the greedy assignment loop are
pairwise distinct and avoid every header already claimed. -/
theorem assignFold_raws (rawHeaders : List String) :
    ∀ (fields used : List String),
      ((assignFold rawHeaders fields used).filterMap (fun e => e.2.1)).Nodup ∧
      ∀ r ∈ (assignFold rawHeaders fields used).filterMap (fun e => e.2.1), r ∉ used := by
  intro fields
  induction fields with
  | nil => intro used; simp [assignFold]
  | cons c rest ih =>
    intro used
    cases hfind : (candidatesFor rawHeaders c).find? (fun p => decide (p.1 ∉ used)) with
    | none =>
      rw [assignFold, hfind]
      simpa using ih used
    | some top =>
      have hp := @List.find?_some _ (fun p => decide (p.1 ∉ used)) top
        (candidatesFor rawHeaders c) hfind
      have htop : top.1 ∉ used := of_decide_eq_true hp
      have hrec := ih (top.1 :: used)
      rw [assignFold, hfind]
      simp only [List.filterMap_cons, List.nodup_cons]
      constructor
      · constructor
        · intro hmem
          exact (hrec.2 top.1 hmem) (List.mem_cons_self top.1 used)
        · exact hrec.1
      · intro r hr
        rcases List.mem_cons.mp hr with rfl | hr2
        · exact htop
        · exact fun hru => (hrec.2 r hr2) (List.mem_cons_of_mem top.1 hru)

/-- C5: `detectColumns` never assigns the same raw header to two
canonical fields: the non-null raw headers appearing in the returned
mapping are pairwise distinct, for every input header list. -/
theorem c5_no_shared_raw_header (rawHeaders : List String) :
    ((detectColumns rawHeaders).mapping.filterMap (fun e => e.2)).Nodup := by
  simp only [detectColumns, detectEntries]
  rw [List.filterMap_map]
  exact (assignFold_raws rawHeaders ALL_CANONICAL []).1

/-- Every score in a candidate list clears the 0.4 floor. -/
theorem candidatesFor_score_ge (rawHeaders : List String) (c : String)
    (p : String × ℚ) (hp : p ∈ candidatesFor rawHeaders c) : (2 : ℚ)/5 ≤ p.2 := by
  rw [candidatesFor, List.mem_mergeSort, List.mem_filter] at hp
  exact of_decide_eq_true hp.2

/-- Each entry of the assignment is either unmapped with confidence 0 or
mapped with confidence at least 0.4. -/
theorem assignFold_entries (rawHeaders : List String) :
    ∀ (fields used : List String), ∀ e ∈ assignFold rawHeaders fields used,
      (e.2.1 = none ∧ e.2.2 = 0) ∨ (e.2.1.isSome = true ∧ (2 : ℚ)/5 ≤ e.2.2) := by
  intro fields
  induction fields with
  | nil => intro used e he; simp [assignFold] at he
  | cons c rest ih =>
    intro used e he
    cases hfind : (candidatesFor rawHeaders c).find? (fun p => decide (p.1 ∉ used)) with
    | none =>
      rw [assignFold, hfind] at he
      rcases List.mem_cons.mp he with rfl | he2
      · exact Or.inl ⟨rfl, rfl⟩
      · exact ih used e he2
    | some top =>
      have hmem : top ∈ candidatesFor rawHeaders c := List.mem_of_find?_eq_some hfind
      rw [assignFold, hfind] at he
      rcases List.mem_cons.mp he with rfl | he2
      · exact Or.inr ⟨rfl, candidatesFor_score_ge rawHeaders c top hmem⟩
      · exact ih (top.1 :: used) e he2

/-- C10: in every `DetectionResult`, walking the mapping and confidence
lists in parallel, a field is either unmapped (null) with confidence
exactly 0, or mapped with confidence at least 0.4; in particular a
field's mapping entry is null exactly when its confidence is below 0.4. -/
theorem c10_mapping_confidence_invariant (rawHeaders : List String) :
    ((detectColumns rawHeaders).mapping.zip (detectColumns rawHeaders).confidences).Forall
      (fun mc => (mc.1.2 = none ∧ mc.2.2 = 0) ∨
        (mc.1.2.isSome = true ∧ (2 : ℚ)/5 ≤ mc.2.2)) := by
  simp only [detectColumns, detectEntries]
  rw [List.zip_map', List.forall_map_iff]
  rw [List.forall_iff_forall_mem]
  intro e he
  exact assignFold_entries rawHeaders ALL_CANONICAL [] e he

end Scrutix
